import Mathlib

/-!
Verification of the pitch-manipulation module `frescobaldi_app/ly/pitch/__init__.py`.

The module is embedded shallowly: Python strings become `List Char`,
`fractions.Fraction` becomes `ℚ` (built through `mkRat`, which evaluates in the
kernel, unlike Mathlib's irreducible rational arithmetic), the lazy token
generators `PitchIterator.tokens` / `PitchIterator.pitches` become structurally
recursive state machines over token lists, and the in-place document edits of
`PitchIterator.write` become an explicit list of edit operations (an exception
aborts the call before any edit is produced, exactly as in the Python control
flow).
-/

set_option maxHeartbeats 1600000

namespace Fresco

/-- Python strings (spellings, token texts, language identifiers) are modelled
as lists of characters. -/
abbrev Str := List Char

/-- Conversion from a Lean string literal to the model's string type. -/
def str (s : String) : Str := s.toList

/-- Rational multiplication, written out on numerator and denominator (through
the normalizing constructor `mkRat`) so that it evaluates inside the kernel;
it agrees with `ℚ` multiplication. -/
def qMul (a b : ℚ) : ℚ := mkRat (a.num * b.num) (a.den * b.den)

/-- Rational addition, written out on numerator and denominator (through the
normalizing constructor `mkRat`) so that it evaluates inside the kernel;
it agrees with `ℚ` addition. -/
def qAdd (a b : ℚ) : ℚ := mkRat (a.num * (b.den : ℤ) + b.num * (a.den : ℤ)) (a.den * b.den)

/-- Python `Fraction(num, den)` for a positive denominator: the normalized
rational `num / den`. -/
def pyFraction (num : ℤ) (den : ℕ) : ℚ := mkRat num den

/-- Python `int()` applied to an exact rational: truncation toward zero
(the denominator of a normalized `ℚ` is positive). -/
def pyInt (q : ℚ) : ℤ := q.num.tdiv (q.den : ℤ)

/-- One language entry of the `pitchInfo` table: the 7 base note names, the 9
accidental suffixes (indexed by alteration in quarter tones plus 4), and the
optional spelling replacement pairs. -/
structure LangTable where
  names : List Str
  accs : List Str
  replacements : List (Str × Str) := []
deriving DecidableEq

/-- The `'nederlands'` entry of `pitchInfo`. -/
def nederlandsTable : LangTable where
  names := [str "c", str "d", str "e", str "f", str "g", str "a", str "b"]
  accs := [str "eses", str "eseh", str "es", str "eh", str "", str "ih", str "is",
    str "isih", str "isis"]
  replacements := [(str "ees", str "es"), (str "aes", str "as")]

/-- The `'english'` entry of `pitchInfo`. -/
def englishTable : LangTable where
  names := [str "c", str "d", str "e", str "f", str "g", str "a", str "b"]
  accs := [str "ff", str "tqf", str "f", str "qf", str "", str "qs", str "s",
    str "tqs", str "ss"]

/-- The `'deutsch'` entry of `pitchInfo` (also aliased as `'norsk'` and `'suomi'`). -/
def deutschTable : LangTable where
  names := [str "c", str "d", str "e", str "f", str "g", str "a", str "h"]
  accs := [str "eses", str "eseh", str "es", str "eh", str "", str "ih", str "is",
    str "isih", str "isis"]
  replacements := [(str "ees", str "es"), (str "aes", str "as"), (str "hes", str "b")]

/-- The `'svenska'` entry of `pitchInfo`. -/
def svenskaTable : LangTable where
  names := [str "c", str "d", str "e", str "f", str "g", str "a", str "h"]
  accs := [str "essess", str "", str "ess", str "", str "", str "", str "iss",
    str "", str "ississ"]
  replacements := [(str "ees", str "es"), (str "aes", str "as"), (str "hess", str "b")]

/-- The `'italiano'` entry of `pitchInfo` (also aliased as `'catalan'`). -/
def italianoTable : LangTable where
  names := [str "do", str "re", str "mi", str "fa", str "sol", str "la", str "si"]
  accs := [str "bb", str "bsb", str "b", str "sb", str "", str "sd", str "d",
    str "dsd", str "dd"]

/-- The `'espanol'` entry of `pitchInfo`. -/
def espanolTable : LangTable where
  names := [str "do", str "re", str "mi", str "fa", str "sol", str "la", str "si"]
  accs := [str "bb", str "", str "b", str "", str "", str "", str "s", str "", str "ss"]

/-- The `'portugues'` entry of `pitchInfo`. -/
def portuguesTable : LangTable where
  names := [str "do", str "re", str "mi", str "fa", str "sol", str "la", str "si"]
  accs := [str "bb", str "btqt", str "b", str "bqt", str "", str "sqt", str "s",
    str "stqt", str "ss"]

/-- The `'vlaams'` entry of `pitchInfo`. -/
def vlaamsTable : LangTable where
  names := [str "do", str "re", str "mi", str "fa", str "sol", str "la", str "si"]
  accs := [str "bb", str "", str "b", str "", str "", str "", str "k", str "", str "kk"]

/-- The `pitchInfo` registry, with the three alias keys added after the literal
(`norsk` and `suomi` share the `deutsch` tuple, `catalan` shares `italiano`). -/
def pitchInfo : List (Str × LangTable) :=
  [ (str "nederlands", nederlandsTable),
    (str "english", englishTable),
    (str "deutsch", deutschTable),
    (str "svenska", svenskaTable),
    (str "italiano", italianoTable),
    (str "espanol", espanolTable),
    (str "portugues", portuguesTable),
    (str "vlaams", vlaamsTable),
    (str "norsk", deutschTable),
    (str "suomi", deutschTable),
    (str "catalan", italianoTable) ]

/-- Dictionary lookup in `pitchInfo`. -/
def lookupLang (language : Str) : Option LangTable :=
  (pitchInfo.find? (fun p => p.1 == language)).map Prod.snd

/-- Result of `PitchWriter.__call__`: a spelling, or the
`PitchNameNotAvailable(language)` exception. -/
inductive WriteResult where
  | ok (spelling : Str)
  | notAvailable (language : Str)
deriving DecidableEq

/-- Whether a `WriteResult` is a successful spelling. -/
def WriteResult.isOk : WriteResult → Bool
  | .ok _ => true
  | .notAvailable _ => false

/-- The replacement loop of `PitchWriter.__call__`: pairs `(s, r)` are tried in
order against the built spelling, and the loop `break`s after the first pair
whose `s` is a prefix. -/
def applyWriteReplacements : List (Str × Str) → Str → Str
  | [], p => p
  | (s, r) :: rest, p =>
      if s.isPrefixOf p then r ++ p.drop s.length
      else applyWriteReplacements rest p

/-- `PitchWriter.__call__(note, alter)`: base name, then (for a nonzero
alteration) the accidental suffix at index `int(alter * 4 + 4)`, raising
`PitchNameNotAvailable(language)` when that slot is empty, and finally the
replacement loop.  (`names[note]` and the accidental slot are modelled with
`getD`; within the module's domain, `note` in `0..6` and `alter` a quarter-tone
multiple in `[-1, 1]`, both indices are in range.) -/
def pitchWriterCall (tbl : LangTable) (language : Str) (note : ℕ) (alter : ℚ) :
    WriteResult :=
  let pitch := tbl.names.getD note []
  if alter = 0 then .ok (applyWriteReplacements tbl.replacements pitch)
  else
    let acc := tbl.accs.getD (pyInt (qAdd (qMul alter 4) 4)).toNat []
    if acc = [] then .notAvailable language
    else .ok (applyWriteReplacements tbl.replacements (pitch ++ acc))

/-- The replacement loop of `PitchReader.__call__`: it has no `break`, so every
pair `(s, r)` is tried, in order, against the text as already rewritten by the
earlier pairs. -/
def applyReadReplacements : List (Str × Str) → Str → Str
  | [], text => text
  | (s, r) :: rest, text =>
      applyReadReplacements rest
        (if r.isPrefixOf text then s ++ text.drop r.length else text)

/-- The optional accidental group of the compiled regex
`(name1|...|name7)(acc1|...|acck)?$`: the (non-empty) alternatives are tried in
order, a successful one must consume the whole remaining text, and when none
fits the group is skipped, which requires the remainder to be empty. -/
def matchAcc (accsNE : List Str) (rem : Str) : Option (Option Str) :=
  match accsNE with
  | [] => if rem = [] then some none else none
  | a :: rest => if a = rem then some (some a) else matchAcc rest rem

/-- `re.match` of `(name1|...|name7)(acc1|...|acck)?$` against `text`: the name
alternatives are tried in order anchored at the start, and when the rest of the
pattern cannot complete a name the next alternative is tried. -/
def rxMatch (names accsNE : List Str) (text : Str) : Option (Str × Option Str) :=
  match names with
  | [] => none
  | n :: rest =>
      if n.isPrefixOf text then
        match matchAcc accsNE (text.drop n.length) with
        | some g2 => some (n, g2)
        | none => rxMatch rest accsNE text
      else rxMatch rest accsNE text

/-- One call of Python `str.replace(pat, rep)` (all non-overlapping occurrences,
left to right).  The extra fuel argument only bounds the scan so the recursion
is structural; the input length is always sufficient fuel for the non-empty
patterns (`'flat'`, `'sharp'`) used by the module. -/
def pyReplaceAux (pat rep : Str) : ℕ → Str → Str
  | 0, text => text
  | _ + 1, [] => []
  | fuel + 1, c :: rest =>
      if pat.isPrefixOf (c :: rest) then
        rep ++ pyReplaceAux pat rep fuel ((c :: rest).drop pat.length)
      else c :: pyReplaceAux pat rep fuel rest

/-- Python `text.replace(pat, rep)` for a non-empty pattern. -/
def pyReplace (pat rep text : Str) : Str := pyReplaceAux pat rep text.length text

/-- The alteration computed from the matched accidental group:
`Fraction(accs.index(group2) - 4, 4)` when the group matched, else `0`. -/
def readAlter (accs : List Str) : Option Str → ℚ
  | some a => pyFraction ((accs.indexOf a : ℤ) - 4) 4
  | none => 0

/-- `PitchReader.__call__(text)`: replacement loop, then the anchored regex
match, retried once after substituting the legacy `'flat'`/`'sharp'` spellings;
returns the `(note, alter)` pair or the no-match sentinel (`False` in Python,
`none` here). -/
def pitchReaderCall (tbl : LangTable) (text : Str) : Option (ℕ × ℚ) :=
  let text1 := applyReadReplacements tbl.replacements text
  let accsNE := tbl.accs.filter (fun a => a ≠ [])
  match rxMatch tbl.names accsNE text1 with
  | some (g1, g2) => some (tbl.names.indexOf g1, readAlter tbl.accs g2)
  | none =>
      let text2 := pyReplace (str "sharp") (str "s") (pyReplace (str "flat") (str "f") text1)
      match rxMatch tbl.names accsNE text2 with
      | some (g1, g2) => some (tbl.names.indexOf g1, readAlter tbl.accs g2)
      | none => none

/-- `octaveToString(octave)`: commas for a negative octave, apostrophes for a
positive one (Python's `and`/`or` idiom, which also sends `0` to the empty
string). -/
def octaveToString (octave : ℤ) : Str :=
  if octave < 0 then List.replicate (-octave).toNat ','
  else List.replicate octave.toNat '\''

/-- `octaveToNum(text)`: the count of apostrophes minus the count of commas. -/
def octaveToNum (text : Str) : ℤ := (text.count '\'' : ℤ) - (text.count ',' : ℤ)

/-- The `Pitch` entity: base note (an integer, `0..6` in the module's domain),
alteration, octave. -/
structure Pitch where
  note : ℤ
  alter : ℚ
  octave : ℤ
deriving DecidableEq

/-- `Pitch.makeAbsolute(lastPitch)`; Python `//` is floored integer division,
`Int.fdiv`. -/
def makeAbsolute (p lastPitch : Pitch) : Pitch :=
  { p with octave := p.octave + (lastPitch.octave - Int.fdiv (p.note - lastPitch.note + 3) 7) }

/-- `Pitch.makeRelative(lastPitch)`. -/
def makeRelative (p lastPitch : Pitch) : Pitch :=
  { p with octave := p.octave - (lastPitch.octave - Int.fdiv (p.note - lastPitch.note + 3) 7) }

/-- The token classifications the module tests with `isinstance`; `other`
stands for every remaining token class of the lexer. -/
inductive TokenClass where
  | note | octave | octaveCheck | space | accidental | keyword | other
deriving DecidableEq

/-- A classified token of the source: class, text and start offset (tokens are
string subclasses in the lexer, so comparisons and slicing act on `text`). -/
structure Token where
  cls : TokenClass
  text : Str
  pos : ℕ
deriving DecidableEq

/-- A token's end offset (`t.end`). -/
def Token.tEnd (t : Token) : ℕ := t.pos + t.text.length

/-- An item yielded by `PitchIterator.tokens`: a source token passed through,
or a synthetic `LanguageName` marker. -/
inductive TokItem where
  | tok (t : Token)
  | langName (language : Str) (pos : ℕ)
deriving DecidableEq

/-- The two control states of the `tokens()` generator: the outer loop, and
the inner loop entered after a `\include` or `\language` keyword. -/
inductive ScanState where
  | default | awaitLang
deriving DecidableEq

/-- Whether a token triggers the language-directive inner loop:
`isinstance(t, Keyword) and t in ("\\include", "\\language")`. -/
def isLangKeyword (t : Token) : Bool :=
  t.cls == TokenClass.keyword &&
    (t.text == str "\\include" || t.text == str "\\language")

/-- The candidate language name derived from a directive's value token:
`t[:-3] if t.endswith('.ly') else t[:]`. -/
def stripLy (text : Str) : Str :=
  if (str ".ly").isSuffixOf text then text.take (text.length - 3) else text

/-- `PitchIterator.tokens`, as a state machine over the token list.  Every
yielded item is annotated with the language in effect at its yield point
(`setLanguage` runs before the `LanguageName` marker is yielded); the final
language state is returned as well.  In the inner loop, whitespace and a
quote token are yielded unchanged; the first other token is consumed as the
candidate language name: when it resolves, the language changes and a
`LanguageName` marker is yielded, otherwise nothing is yielded and the state
is unchanged. -/
def tokensFrom : ScanState → Str → List Token → List (TokItem × Str) × Str
  | _, lang, [] => ([], lang)
  | .default, lang, t :: rest =>
      let st := if isLangKeyword t then ScanState.awaitLang else ScanState.default
      let out := tokensFrom st lang rest
      ((.tok t, lang) :: out.1, out.2)
  | .awaitLang, lang, t :: rest =>
      if t.cls ≠ TokenClass.space ∧ t.text ≠ str "\"" then
        let lg := stripLy t.text
        if (lookupLang lg).isSome then
          let out := tokensFrom .default lg rest
          ((.langName lg t.pos, lg) :: out.1, out.2)
        else
          tokensFrom .default lang rest
      else
        let out := tokensFrom .awaitLang lang rest
        ((.tok t, lang) :: out.1, out.2)

/-- The structured pitch produced by the scanner (`Pitch` plus the
source-linkage attributes set in `pitches()`). -/
structure ScannedPitch where
  note : ℕ
  alter : ℚ
  octave : ℤ
  origOctave : ℤ
  noteText : Str
  notePos : ℕ
  octaveSlice : ℕ × ℕ
  octaveCheck : Option ℤ
  origOctaveCheck : Option ℤ
  octaveCheckSlice : Option (ℕ × ℕ)
deriving DecidableEq

/-- The fresh `ScannedPitch` built when a note token decodes: octave `0`, the
octave slice collapsed at the token's end, no octave check. -/
def newScannedPitch (t : Token) (note : ℕ) (alter : ℚ) : ScannedPitch :=
  { note := note, alter := alter, octave := 0, origOctave := 0,
    noteText := t.text, notePos := t.pos,
    octaveSlice := (t.tEnd, t.tEnd),
    octaveCheck := none, origOctaveCheck := none, octaveCheckSlice := none }

/-- `PitchIterator.read`: decode with the reader of the active language (the
language is always a registered one at every reachable state, since
`setLanguage` only accepts registered names and the initial language is
registered). -/
def readIn (language : Str) (text : Str) : Option (ℕ × ℚ) :=
  match lookupLang language with
  | some tbl => pitchReaderCall tbl text
  | none => none

/-- An item yielded by `PitchIterator.pitches`. -/
inductive PitchItem where
  | tok (t : Token)
  | langName (language : Str) (pos : ℕ)
  | pitch (p : ScannedPitch)
deriving DecidableEq

/-- Re-emission of a `tokens()` item by `pitches()`. -/
def tokItemOut : TokItem → PitchItem
  | .tok t => .tok t
  | .langName l p => .langName l p

/-- The control state of `pitches()`: the outer loop, or the inner
decoration-collecting loop together with the pitch being assembled and the
last token the inner loop consumed without breaking (which the `for` loop
leaves bound, and which gets re-emitted if the source ends there). -/
inductive PState where
  | default
  | collecting (p : ScannedPitch) (lastTok : Option TokItem)
deriving DecidableEq

/-- One step of `pitches()` on an incoming `tokens()` item.  In the outer
loop, a note token that decodes opens a pitch; a note token that does not
decode is consumed without being yielded (the `break` in
`while ... else` skips the `else: yield t` clause); every other item passes
through.  In the decoration loop, octave marks are absorbed into the pitch,
an octave check is absorbed and ends the pitch (the check token is then
re-examined by the `while` and yielded), whitespace and accidental markers
are consumed silently, and any other token ends the pitch and is re-examined:
a decodable note opens the next pitch, a non-decodable note is dropped, and
anything else is yielded after the pitch. -/
def pitchesStep (st : PState) (item : TokItem × Str) : PState × List PitchItem :=
  match st, item with
  | .default, (.tok t, lang) =>
      if t.cls = TokenClass.note then
        match readIn lang t.text with
        | some na => (.collecting (newScannedPitch t na.1 na.2) none, [])
        | none => (.default, [])
      else (.default, [.tok t])
  | .default, (.langName l q, _) => (.default, [.langName l q])
  | .collecting p _, (.tok t, lang) =>
      if t.cls = TokenClass.octave then
        (.collecting { p with octave := octaveToNum t.text, origOctave := octaveToNum t.text,
                              octaveSlice := (t.pos, t.tEnd) } (some (.tok t)), [])
      else if t.cls = TokenClass.octaveCheck then
        (.default,
          [.pitch { p with octaveCheck := some (octaveToNum t.text),
                           origOctaveCheck := some (octaveToNum t.text),
                           octaveCheckSlice := some (t.pos, t.tEnd) },
           .tok t])
      else if t.cls = TokenClass.space ∨ t.cls = TokenClass.accidental then
        (.collecting p (some (.tok t)), [])
      else if t.cls = TokenClass.note then
        match readIn lang t.text with
        | some na => (.collecting (newScannedPitch t na.1 na.2) none, [.pitch p])
        | none => (.default, [.pitch p])
      else
        (.default, [.pitch p, .tok t])
  | .collecting p _, (.langName l q, _) =>
      (.default, [.pitch p, .langName l q])

/-- End-of-source behaviour of `pitches()`: a pitch still being assembled is
yielded, followed by the last silently consumed inner-loop token if there was
one (the exhausted `for` leaves it bound and the `while ... else` yields it). -/
def pitchesFlush : PState → List PitchItem
  | .default => []
  | .collecting p last =>
      .pitch p :: (match last with | some it => [tokItemOut it] | none => [])

/-- `PitchIterator.pitches` over an annotated `tokens()` stream. -/
def pitchesGo : PState → List (TokItem × Str) → List PitchItem
  | st, [] => pitchesFlush st
  | st, it :: rest =>
      let step := pitchesStep st it
      step.2 ++ pitchesGo step.1 rest

/-- `PitchIterator.__init__` sets the language to `"nederlands"` (through
`setLanguage`, which accepts it since it is registered). -/
def initialLanguage : Str := str "nederlands"

/-- The whole `pitches()` pipeline of a freshly constructed `PitchIterator`. -/
def pitchIteratorRun (source : List Token) : List PitchItem :=
  pitchesGo .default (tokensFrom .default initialLanguage source).1

/-- A document-buffer operation issued by `PitchIterator.write`. -/
inductive Edit where
  | replace (start stop : ℕ) (text : Str)
  | delete (start stop : ℕ)
deriving DecidableEq

/-- The exceptions that can escape `PitchIterator.write`: an unregistered
language (`KeyError` from `pitchInfo`) or `PitchNameNotAvailable`. -/
inductive PyError where
  | keyError (language : Str)
  | notAvailableError (language : Str)
deriving DecidableEq

/-- The outcome of `PitchIterator.write`: the ordered list of buffer
operations, or the exception that aborted the call. -/
inductive WriteOutcome where
  | edits (es : List Edit)
  | error (e : PyError)
deriving DecidableEq

/-- Python `language or self.language` (both `None` and the empty string are
falsy). -/
def resolveLang (current : Str) : Option Str → Str
  | none => current
  | some l => if l = [] then current else l

/-- `PitchIterator.write(pitch, document, language)`: the ordered list of
buffer operations, or the exception that aborted the call.  The writer runs
first, so a failing encode aborts before any edit is issued.  The octave-check
slice is stored only when an octave check was scanned, so the `getD` defaults
are never reached on scanner-produced pitches. -/
def iterWrite (current : Str) (p : ScannedPitch) (language : Option Str) :
    WriteOutcome :=
  let l := resolveLang current language
  match lookupLang l with
  | none => .error (.keyError l)
  | some tbl =>
    match pitchWriterCall tbl l p.note p.alter with
    | .notAvailable lg => .error (.notAvailableError lg)
    | .ok note =>
        let noteEdits := if note ≠ p.noteText then
            [Edit.replace p.notePos (p.notePos + p.noteText.length) note] else []
        let octaveEdits := if p.octave ≠ p.origOctave then
            [Edit.replace p.octaveSlice.1 p.octaveSlice.2 (octaveToString p.octave)] else []
        let checkEdits :=
          match p.origOctaveCheck with
          | none => []
          | some _ =>
            match p.octaveCheck with
            | none =>
                [Edit.delete (p.octaveCheckSlice.getD (0, 0)).1 (p.octaveCheckSlice.getD (0, 0)).2]
            | some oc =>
                [Edit.replace (p.octaveCheckSlice.getD (0, 0)).1 (p.octaveCheckSlice.getD (0, 0)).2
                  (str "=" ++ octaveToString oc)]
        .edits (noteEdits ++ octaveEdits ++ checkEdits)

/-- Modelled from the spec's words (for the refinement claim about replacement
rules): on the encode side, apply only the first pair whose canonical prefix
matches. -/
def firstMatchWrite (reps : List (Str × Str)) (p : Str) : Str :=
  match reps.find? (fun pr => pr.1.isPrefixOf p) with
  | some (s, r) => r ++ p.drop s.length
  | none => p

/-- Modelled from the spec's words (for the refinement claim about replacement
rules): on the decode side, rewrite only by the first pair whose alternate
prefix matches. -/
def firstMatchRead (reps : List (Str × Str)) (text : Str) : Str :=
  match reps.find? (fun pr => pr.2.isPrefixOf text) with
  | some (s, r) => s ++ text.drop r.length
  | none => text

/-- The alteration denoted by accidental-table index `a` (index 4 is natural). -/
def alterOfIdx (a : Fin 9) : ℚ := pyFraction ((a.val : ℤ) - 4) 4

/-- Encode then decode within one language table. -/
def writeRead (tbl : LangTable) (language : Str) (note : ℕ) (alter : ℚ) :
    Option (ℕ × ℚ) :=
  match pitchWriterCall tbl language note alter with
  | .ok s => pitchReaderCall tbl s
  | .notAvailable _ => none

/-- Concrete tokens for the write-back counterexample: a decodable note
followed by an octave check. -/
def c4NoteTok : Token := { cls := TokenClass.note, text := str "c", pos := 0 }

/-- The octave-check token of the write-back counterexample. -/
def c4CheckTok : Token := { cls := TokenClass.octaveCheck, text := str "='", pos := 1 }

/-- The scanned pitch the scanner produces for `c4NoteTok` followed by
`c4CheckTok`; none of its fields is subsequently mutated. -/
def c4Pitch : ScannedPitch :=
  { note := 0, alter := 0, octave := 0, origOctave := 0,
    noteText := str "c", notePos := 0, octaveSlice := (1, 1),
    octaveCheck := some 1, origOctaveCheck := some 1,
    octaveCheckSlice := some (1, 3) }

/- ------------------------------------------------------------------ -/
/- Helper lemmas                                                       -/
/- ------------------------------------------------------------------ -/

theorem isPrefixOf_false_of_head_ne {a b : Char} (h : (a == b) = false)
    (as bs : List Char) : (a :: as).isPrefixOf (b :: bs) = false := by
  simp [List.isPrefixOf, h]

theorem applyWrite_eq_firstMatch (reps : List (Str × Str)) (p : Str) :
    applyWriteReplacements reps p = firstMatchWrite reps p := by
  induction reps with
  | nil => rfl
  | cons pr rest ih =>
      obtain ⟨s, r⟩ := pr
      by_cases h : s.isPrefixOf p
      · simp [applyWriteReplacements, firstMatchWrite, List.find?_cons, h]
      · simp only [Bool.not_eq_true] at h
        simp [applyWriteReplacements, firstMatchWrite, List.find?_cons, h, ih]

theorem applyRead_two (s1 r1 s2 r2 : Str)
    (h12 : ∀ t : Str, r1.isPrefixOf t = true →
      r2.isPrefixOf (s1 ++ t.drop r1.length) = false) (t : Str) :
    applyReadReplacements [(s1, r1), (s2, r2)] t
      = firstMatchRead [(s1, r1), (s2, r2)] t := by
  by_cases h1 : r1.isPrefixOf t
  · have h2 := h12 t h1
    simp [applyReadReplacements, firstMatchRead, List.find?_cons, h1, h2]
  · simp only [Bool.not_eq_true] at h1
    by_cases h2 : r2.isPrefixOf t
    · simp [applyReadReplacements, firstMatchRead, List.find?_cons, h1, h2]
    · simp only [Bool.not_eq_true] at h2
      simp [applyReadReplacements, firstMatchRead, List.find?_cons, h1, h2]

theorem applyRead_three (s1 r1 s2 r2 s3 r3 : Str)
    (h12 : ∀ t : Str, r1.isPrefixOf t = true →
      r2.isPrefixOf (s1 ++ t.drop r1.length) = false)
    (h13 : ∀ t : Str, r1.isPrefixOf t = true →
      r3.isPrefixOf (s1 ++ t.drop r1.length) = false)
    (h23 : ∀ t : Str, r2.isPrefixOf t = true →
      r3.isPrefixOf (s2 ++ t.drop r2.length) = false) (t : Str) :
    applyReadReplacements [(s1, r1), (s2, r2), (s3, r3)] t
      = firstMatchRead [(s1, r1), (s2, r2), (s3, r3)] t := by
  by_cases h1 : r1.isPrefixOf t
  · have h2 := h12 t h1
    have h3 := h13 t h1
    simp [applyReadReplacements, firstMatchRead, List.find?_cons, h1, h2, h3]
  · simp only [Bool.not_eq_true] at h1
    by_cases h2 : r2.isPrefixOf t
    · have h3 := h23 t h2
      simp [applyReadReplacements, firstMatchRead, List.find?_cons, h1, h2, h3]
    · simp only [Bool.not_eq_true] at h2
      by_cases h3 : r3.isPrefixOf t
      · simp [applyReadReplacements, firstMatchRead, List.find?_cons, h1, h2, h3]
      · simp only [Bool.not_eq_true] at h3
        simp [applyReadReplacements, firstMatchRead, List.find?_cons, h1, h2, h3]

theorem cond_es_as : ∀ t : Str, (str "es").isPrefixOf t = true →
    (str "as").isPrefixOf (str "ees" ++ t.drop (str "es").length) = false := by
  intro t _
  show (('a' :: 's' :: []) : Str).isPrefixOf ('e' :: 'e' :: 's' :: t.drop 2) = false
  exact isPrefixOf_false_of_head_ne (by decide) _ _

theorem cond_es_b : ∀ t : Str, (str "es").isPrefixOf t = true →
    (str "b").isPrefixOf (str "ees" ++ t.drop (str "es").length) = false := by
  intro t _
  show (('b' :: []) : Str).isPrefixOf ('e' :: 'e' :: 's' :: t.drop 2) = false
  exact isPrefixOf_false_of_head_ne (by decide) _ _

theorem cond_as_b : ∀ t : Str, (str "as").isPrefixOf t = true →
    (str "b").isPrefixOf (str "aes" ++ t.drop (str "as").length) = false := by
  intro t _
  show (('b' :: []) : Str).isPrefixOf ('a' :: 'e' :: 's' :: t.drop 2) = false
  exact isPrefixOf_false_of_head_ne (by decide) _ _

theorem tokensFrom_awaitLang_skip (lang : Str) (c : Token) (ws rest : List Token)
    (hws : ∀ w ∈ ws, ¬(w.cls ≠ TokenClass.space ∧ w.text ≠ str "\""))
    (hc : c.cls ≠ TokenClass.space ∧ c.text ≠ str "\"")
    (hfail : lookupLang (stripLy c.text) = none) :
    tokensFrom .awaitLang lang (ws ++ c :: rest)
      = (ws.map (fun w => (TokItem.tok w, lang)) ++ (tokensFrom .default lang rest).1,
         (tokensFrom .default lang rest).2) := by
  induction ws with
  | nil =>
      show tokensFrom .awaitLang lang (c :: rest) = _
      simp [tokensFrom, hc, hfail]
  | cons w ws ih =>
      have hw := hws w (by simp)
      have ih2 := ih (fun x hx => hws x (by simp [hx]))
      show tokensFrom .awaitLang lang (w :: (ws ++ c :: rest)) = _
      simp [tokensFrom, hw, ih2]

/- ------------------------------------------------------------------ -/
/- The claims                                                          -/
/- ------------------------------------------------------------------ -/

/-- C1 (counterexample): decoding the single spelling `"es"` with the
`nederlands` reader does not yield note `5` with alter `-1/2`: the reader's
replacement loop first rewrites `"es"` to `"ees"`, which matches base note
`'e'` (index 2) with the `es` accidental. -/
theorem C1_counterexample :
    pitchReaderCall nederlandsTable (str "es") ≠ some (5, -1/2) := by
  have h : (-1/2 : ℚ) = pyFraction (-1) 2 := by
    norm_num [pyFraction, Rat.mkRat_eq_div]
  rw [h]
  decide

/-- C1 (amended): for language `nederlands`, decoding the single spelling
`"es"` yields note `2` (the base note `'e'`) with alter `-1/2`. -/
theorem C1_amended :
    pitchReaderCall nederlandsTable (str "es") = some (2, -1/2) := by
  have h : (-1/2 : ℚ) = pyFraction (-1) 2 := by
    norm_num [pyFraction, Rat.mkRat_eq_div]
  rw [h]
  decide

/-- C2: for every registered language and every `(note, alter)` with `note` in
`0..6` and `alter` a quarter-tone multiple in `[-1, 1]` whose accidental-table
entry at index `alter * 4 + 4` is non-empty (or `alter = 0`), decoding the
encoded spelling returns the same pair. -/
theorem C2_roundtrip : ∀ p ∈ pitchInfo, ∀ note : Fin 7, ∀ a : Fin 9,
    (a.val = 4 ∨ p.2.accs.getD a.val [] ≠ []) →
    writeRead p.2 p.1 note.val (alterOfIdx a) = some (note.val, alterOfIdx a) := by
  decide

/-- C2 witness: the round trip at `nederlands`, note `0`, alter `-1/2`. -/
theorem C2_roundtrip_witness :
    writeRead nederlandsTable (str "nederlands") 0 (alterOfIdx 2)
      = some (0, alterOfIdx 2) :=
  C2_roundtrip (str "nederlands", nederlandsTable) (by decide) 0 2 (Or.inr (by decide))

/-- C3 (code bug): a note-class token whose text does not decode in the active
language (here `"qq"` under the initial `nederlands`) is consumed without being
re-emitted: the scanner's output stream is empty, where the claim (and the
method's own docstring, which promises that all tokens are yielded) requires
the bare token to pass through.  The `break` taken on a failed decode skips
the `while` loop's `else: yield t` clause. -/
theorem C3_unmatched_note_dropped :
    readIn initialLanguage (str "qq") = none
    ∧ pitchIteratorRun [{ cls := TokenClass.note, text := str "qq", pos := 0 }] = [] := by
  decide

/-- C4 (counterexample): a scanner-produced pitch carrying an octave check,
written back with every field unchanged (the name re-encodes to the original
token text, octave and octave check equal their originals), still receives one
`replace` operation: the octave-check branch rewrites its span unconditionally. -/
theorem C4_counterexample :
    pitchIteratorRun [c4NoteTok, c4CheckTok]
        = [PitchItem.pitch c4Pitch, PitchItem.tok c4CheckTok]
    ∧ pitchWriterCall nederlandsTable (str "nederlands") c4Pitch.note c4Pitch.alter
        = .ok c4Pitch.noteText
    ∧ c4Pitch.octave = c4Pitch.origOctave
    ∧ c4Pitch.octaveCheck = c4Pitch.origOctaveCheck
    ∧ iterWrite (str "nederlands") c4Pitch none
        = .edits [Edit.replace 1 3 (str "='")]
    ∧ iterWrite (str "nederlands") c4Pitch none ≠ .edits [] := by
  decide

/-- C4 (amended): write-back of a pitch whose fields were not mutated performs
zero buffer edits provided the pitch carries no octave check (`origOctaveCheck`
is `None`); with a check present a single replace of the check span is always
issued. -/
theorem C4_amended (current : Str) (language : Option Str) (p : ScannedPitch)
    (tbl : LangTable)
    (htbl : lookupLang (resolveLang current language) = some tbl)
    (hnote : pitchWriterCall tbl (resolveLang current language) p.note p.alter
      = .ok p.noteText)
    (hoct : p.octave = p.origOctave)
    (_hchkEq : p.octaveCheck = p.origOctaveCheck)
    (hchk : p.origOctaveCheck = none) :
    iterWrite current p language = .edits [] := by
  simp [iterWrite, htbl, hnote, hoct, hchk]

/-- C4 witness: the amended statement at a concrete check-free pitch. -/
theorem C4_amended_witness :
    iterWrite (str "nederlands")
      { note := 0, alter := 0, octave := 0, origOctave := 0,
        noteText := str "c", notePos := 0, octaveSlice := (1, 1),
        octaveCheck := none, origOctaveCheck := none, octaveCheckSlice := none }
      none = .edits [] :=
  C4_amended _ _ _ nederlandsTable (by decide) (by decide) rfl rfl rfl

/-- C5: if re-encoding the pitch name fails with `PitchNameNotAvailable`, the
write-back call propagates exactly that error and issues no buffer operation
at all (the writer runs before any edit is produced). -/
theorem C5_atomic_failure (current : Str) (language : Option Str)
    (p : ScannedPitch) (tbl : LangTable) (lg : Str)
    (htbl : lookupLang (resolveLang current language) = some tbl)
    (hfail : pitchWriterCall tbl (resolveLang current language) p.note p.alter
      = .notAvailable lg) :
    iterWrite current p language = .error (.notAvailableError lg) := by
  simp [iterWrite, htbl, hfail]

/-- C5 witness: writing a quarter-sharp pitch back under `espanol` aborts with
`PitchNameNotAvailable("espanol")` and no edits. -/
theorem C5_atomic_failure_witness :
    iterWrite (str "espanol")
      { note := 0, alter := pyFraction 1 4, octave := 0, origOctave := 0,
        noteText := str "do", notePos := 0, octaveSlice := (2, 2),
        octaveCheck := none, origOctaveCheck := none, octaveCheckSlice := none }
      none = .error (.notAvailableError (str "espanol")) :=
  C5_atomic_failure _ _ _ espanolTable _ (by decide) (by decide)

/-- C6: for every registered language, note in `0..6` and table alteration with
`alter ≠ 0`, encoding fails with `PitchNameNotAvailable` carrying the language
identifier exactly when the accidental entry at index `alter * 4 + 4` is empty;
`alter = 0` always succeeds; and in particular `espanol` at note `0`,
alter `+1/4` raises `PitchNameNotAvailable("espanol")`. -/
theorem C6_unavailable :
    (∀ p ∈ pitchInfo, ∀ note : Fin 7, ∀ a : Fin 9, a.val ≠ 4 →
        (pitchWriterCall p.2 p.1 note.val (alterOfIdx a) = .notAvailable p.1 ↔
          p.2.accs.getD a.val [] = []))
    ∧ (∀ p ∈ pitchInfo, ∀ note : Fin 7,
        (pitchWriterCall p.2 p.1 note.val 0).isOk = true)
    ∧ pitchWriterCall espanolTable (str "espanol") 0 (pyFraction 1 4)
        = .notAvailable (str "espanol") :=
  ⟨by decide, by decide, by decide⟩

/-- C6 witness: the failure criterion instantiated at `espanol`, note `0`,
alter `+1/4` (accidental index 5). -/
theorem C6_unavailable_witness :
    pitchWriterCall espanolTable (str "espanol") 0 (alterOfIdx 5)
        = .notAvailable (str "espanol")
      ↔ espanolTable.accs.getD 5 [] = [] :=
  C6_unavailable.1 (str "espanol", espanolTable) (by decide) 0 5 (by decide)

/-- C7: for every registered language, both the encode-side substitution and
the decode-side prefix rewrite coincide with applying only the first
replacement pair (in list order) whose prefix matches: at most one pair is
ever applied. -/
theorem C7_single_replacement :
    ∀ p ∈ pitchInfo,
      (∀ text : Str, applyWriteReplacements p.2.replacements text
          = firstMatchWrite p.2.replacements text)
      ∧ (∀ text : Str, applyReadReplacements p.2.replacements text
          = firstMatchRead p.2.replacements text) := by
  intro p hp
  refine ⟨fun text => applyWrite_eq_firstMatch _ _, ?_⟩
  fin_cases hp
  · exact applyRead_two _ _ _ _ cond_es_as
  · intro text; rfl
  · exact applyRead_three _ _ _ _ _ _ cond_es_as cond_es_b cond_as_b
  · exact applyRead_three _ _ _ _ _ _ cond_es_as cond_es_b cond_as_b
  · intro text; rfl
  · intro text; rfl
  · intro text; rfl
  · intro text; rfl
  · exact applyRead_three _ _ _ _ _ _ cond_es_as cond_es_b cond_as_b
  · exact applyRead_three _ _ _ _ _ _ cond_es_as cond_es_b cond_as_b
  · intro text; rfl

/-- C7 witness: the decode-side rewrite at `nederlands` on `"es"` agrees with
the first-match-only rewrite. -/
theorem C7_single_replacement_witness :
    applyReadReplacements nederlandsTable.replacements (str "es")
      = firstMatchRead nederlandsTable.replacements (str "es") :=
  (C7_single_replacement (str "nederlands", nederlandsTable) (by decide)).2 (str "es")

/-- C8: for pitches with note fields in `0..6` and arbitrary octaves,
`makeAbsolute` adds `prev.octave - fdiv (p.note - prev.note + 3) 7` (floored
division) to the octave, and `makeRelative` with the same previous pitch
restores the original pitch. -/
theorem C8_octave_arithmetic (p prev : Pitch)
    (hp1 : 0 ≤ p.note) (hp2 : p.note ≤ 6)
    (hq1 : 0 ≤ prev.note) (hq2 : prev.note ≤ 6) :
    (makeAbsolute p prev).octave
        = p.octave + (prev.octave - Int.fdiv (p.note - prev.note + 3) 7)
    ∧ makeRelative (makeAbsolute p prev) prev = p := by
  constructor
  · rfl
  · cases p
    cases prev
    simp only [makeAbsolute, makeRelative, Pitch.mk.injEq]
    refine ⟨trivial, trivial, ?_⟩
    ring

/-- C8 witness: the octave arithmetic at `p = (note 6, octave 0)` against
`prev = (note 0, octave 1)`. -/
theorem C8_octave_arithmetic_witness :
    (makeAbsolute ⟨6, 0, 0⟩ ⟨0, 0, 1⟩).octave
        = 0 + (1 - Int.fdiv ((6 : ℤ) - 0 + 3) 7)
    ∧ makeRelative (makeAbsolute ⟨6, 0, 0⟩ ⟨0, 0, 1⟩) ⟨0, 0, 1⟩ = ⟨6, 0, 0⟩ :=
  C8_octave_arithmetic ⟨6, 0, 0⟩ ⟨0, 0, 1⟩ (by decide) (by decide) (by decide) (by decide)

/-- C9: a language/include directive keyword followed (after passed-through
whitespace/quote tokens) by a candidate token that does not resolve leaves the
active language unchanged, consumes the candidate without re-emitting it, and
scanning of the remaining tokens proceeds normally. -/
theorem C9_unresolved_directive (lang : Str) (k c : Token) (ws rest : List Token)
    (hk : isLangKeyword k = true)
    (hws : ∀ w ∈ ws, ¬(w.cls ≠ TokenClass.space ∧ w.text ≠ str "\""))
    (hc : c.cls ≠ TokenClass.space ∧ c.text ≠ str "\"")
    (hfail : lookupLang (stripLy c.text) = none) :
    tokensFrom .default lang (k :: ws ++ c :: rest)
      = ((TokItem.tok k, lang) :: ws.map (fun w => (TokItem.tok w, lang))
            ++ (tokensFrom .default lang rest).1,
         (tokensFrom .default lang rest).2) := by
  have hstep : tokensFrom .default lang (k :: (ws ++ c :: rest))
      = ((TokItem.tok k, lang) :: (tokensFrom .awaitLang lang (ws ++ c :: rest)).1,
         (tokensFrom .awaitLang lang (ws ++ c :: rest)).2) := by
    simp [tokensFrom, hk]
  rw [List.cons_append, hstep, tokensFrom_awaitLang_skip lang c ws rest hws hc hfail]
  rfl

/-- C9 witness: an unresolvable `\language xyz` directive under `nederlands`. -/
theorem C9_unresolved_directive_witness :
    tokensFrom .default (str "nederlands")
        ({ cls := TokenClass.keyword, text := str "\\language", pos := 0 }
          :: [{ cls := TokenClass.space, text := str " ", pos := 9 }]
          ++ { cls := TokenClass.other, text := str "xyz", pos := 10 }
          :: [{ cls := TokenClass.note, text := str "c", pos := 14 }])
      = ((TokItem.tok { cls := TokenClass.keyword, text := str "\\language", pos := 0 },
            str "nederlands")
          :: [{ cls := TokenClass.space, text := str " ", pos := 9 }].map
              (fun w => (TokItem.tok w, str "nederlands"))
          ++ (tokensFrom .default (str "nederlands")
              [{ cls := TokenClass.note, text := str "c", pos := 14 }]).1,
         (tokensFrom .default (str "nederlands")
            [{ cls := TokenClass.note, text := str "c", pos := 14 }]).2) :=
  C9_unresolved_directive (str "nederlands") _ _ _ _ (by decide) (by decide)
    (by decide) (by decide)

/-- C10: a fresh scanner starts with `nederlands` active, and while no
language/include directive keyword occurs, every token is processed under the
`nederlands` language, so every note token is decoded with the `nederlands`
table. -/
theorem C10_initial_language (source : List Token)
    (h : ∀ t ∈ source, isLangKeyword t = false) :
    initialLanguage = str "nederlands"
    ∧ tokensFrom .default initialLanguage source
        = (source.map (fun t => (TokItem.tok t, str "nederlands")), str "nederlands")
    ∧ pitchIteratorRun source
        = pitchesGo .default (source.map (fun t => (TokItem.tok t, str "nederlands"))) := by
  have key : ∀ src : List Token, (∀ t ∈ src, isLangKeyword t = false) →
      tokensFrom .default (str "nederlands") src
        = (src.map (fun t => (TokItem.tok t, str "nederlands")), str "nederlands") := by
    intro src
    induction src with
    | nil => intro _; rfl
    | cons t rest ih =>
        intro hsrc
        have ht := hsrc t (by simp)
        have ih2 := ih (fun x hx => hsrc x (by simp [hx]))
        simp [tokensFrom, ht, ih2]
  refine ⟨rfl, key source h, ?_⟩
  show pitchesGo .default (tokensFrom .default (str "nederlands") source).1 = _
  rw [key source h]

/-- C10 witness: a single note token is decoded with the `nederlands` table. -/
theorem C10_initial_language_witness :
    initialLanguage = str "nederlands"
    ∧ tokensFrom .default initialLanguage
          [{ cls := TokenClass.note, text := str "c", pos := 0 }]
        = ([({ cls := TokenClass.note, text := str "c", pos := 0 } : Token)].map
            (fun t => (TokItem.tok t, str "nederlands")), str "nederlands")
    ∧ pitchIteratorRun [{ cls := TokenClass.note, text := str "c", pos := 0 }]
        = pitchesGo .default
            ([({ cls := TokenClass.note, text := str "c", pos := 0 } : Token)].map
              (fun t => (TokItem.tok t, str "nederlands"))) :=
  C10_initial_language [{ cls := TokenClass.note, text := str "c", pos := 0 }] (by decide)

end Fresco
